import Mathlib

/-!
Verification of `flask_appbuilder/views.py`.

The request's query string is modelled as an association list
`List (String × String)` of (argument name, argument value) pairs; iterating
over `request.args` walks this list in order and `request.args.get k` returns
the first value stored under `k` (werkzeug's `MultiDict.get`).  Dictionaries
built by the handlers are modelled as association lists where assignment
replaces an existing binding in place or appends a fresh one.
-/

namespace FAB

/-- Model of `request.args.get k`: first value bound to `k`, if any. -/
def argsGet (args : List (String × String)) (k : String) : Option String :=
  (args.find? (fun p => p.1 == k)).map (·.2)

/-- Python dict assignment `d[k] = v` on an association-list model:
replaces the binding of `k` when present, appends it otherwise. -/
def dictSet (d : List (String × β)) (k : String) (v : β) : List (String × β) :=
  match d with
  | [] => [(k, v)]
  | (k', v') :: rest =>
      if k' = k then (k, v) :: rest else (k', v') :: dictSet rest k v

/-- The numeric value of a decimal digit string. -/
def digitsToNat (cs : List Char) : Nat :=
  cs.foldl (fun acc c => acc * 10 + (c.toNat - 48)) 0

/-- Python 2 `int(s)` on an optional-sign decimal string; `none` models the
`ValueError` raised on anything else (surrounding whitespace, accepted by
CPython, is outside the modelled domain). -/
def pyInt? (s : String) : Option Int :=
  match s.toList with
  | '-' :: rest =>
      if rest ≠ [] ∧ rest.all Char.isDigit then
        some (-(Int.ofNat (digitsToNat rest)))
      else none
  | '+' :: rest =>
      if rest ≠ [] ∧ rest.all Char.isDigit then
        some (Int.ofNat (digitsToNat rest))
      else none
  | cs =>
      if cs ≠ [] ∧ cs.all Char.isDigit then
        some (Int.ofNat (digitsToNat cs))
      else none

/-- Model of `re.findall('page_(.*)', arg)`: the group of the first (and only) match,
i.e. everything after the first occurrence of the substring `page_`. -/
def scanPage : List Char → Option (List Char)
  | 'p' :: 'a' :: 'g' :: 'e' :: '_' :: rest => some rest
  | _ :: rest => scanPage rest
  | [] => none

/-- Model of `re.findall('_oc_(.*)', arg)`: everything after the first occurrence of
the substring `_oc_`. -/
def scanOc : List Char → Option (List Char)
  | '_' :: 'o' :: 'c' :: '_' :: rest => some rest
  | _ :: rest => scanOc rest
  | [] => none

/-- Model of `re.findall('_flt_(\d)_(.*)', arg)`: the scanner looks for the first
position where the whole pattern matches — the literal `_flt_`, one decimal
digit, `_`, then the (greedy) rest of the string.  Returns the digit's value
and the rest. -/
def scanFlt : List Char → Option (Nat × List Char)
  | [] => none
  | c :: rest =>
      match c, rest with
      | '_', 'f' :: 'l' :: 't' :: '_' :: d :: '_' :: rest2 =>
          if d.isDigit then some (d.toNat - 48, rest2) else scanFlt rest
      | _, _ => scanFlt rest

/-- Embedding of `BaseModelView._get_group_by_args`. -/
def getGroupByArgs (args : List (String × String)) : String :=
  match argsGet args "group_by" with
  | some s => if s ≠ "" then s else ""
  | none => ""

/-- Embedding of `BaseModelView._get_page_args`: builds `{VIEW_NAME: PAGE_NUMBER}` from the
arguments matched by `page_(.*)`; `none` models the uncaught `ValueError` when
`int()` is applied to a non-numeric value. -/
def getPageArgsAux : List (String × String) → List (String × Int) →
    Option (List (String × Int))
  | [], pages => some pages
  | (name, value) :: rest, pages =>
      match scanPage name.toList with
      | some suffix =>
          match pyInt? value with
          | some n => getPageArgsAux rest (dictSet pages (String.mk suffix) n)
          | none => none
      | none => getPageArgsAux rest pages

def getPageArgs (args : List (String × String)) : Option (List (String × Int)) :=
  getPageArgsAux args []

/-- Embedding of `BaseModelView._get_order_args`: builds
`{VIEW_NAME: (ORDER_COL, ORDER_DIRECTION)}` from the arguments matched by
`_oc_(.*)`; the direction is `request.args.get('_od_' + VIEW_NAME)`, which is
Python `None` when that argument is absent.  `orderArgStep` is one loop
iteration. -/
def orderArgStep (args : List (String × String))
    (orders : List (String × (String × Option String))) (p : String × String) :
    List (String × (String × Option String)) :=
  match scanOc p.1.toList with
  | some suffix =>
      dictSet orders (String.mk suffix)
        (p.2, argsGet args ("_od_" ++ String.mk suffix))
  | none => orders

def getOrderArgs (args : List (String × String)) :
    List (String × (String × Option String)) :=
  args.foldl (orderArgStep args) []

/-- Modelled from the spec: the `Filters` object of `models/filters.py` (not
in the sources) as used by the views — a collection of per-column filter
entries; `_get_filter_args` drives it only through `clear_filters` and
`add_filter_index(column, index, value)`, so it is modelled as the list of
recorded (column, index, value) entries. -/
structure Filters where
  flts : List (String × Nat × String)
  deriving DecidableEq, Repr

/-- Modelled from the spec: `Filters.clear_filters` empties the collection. -/
def Filters.clear_filters (_f : Filters) : Filters := ⟨[]⟩

/-- Modelled from the spec: `Filters.add_filter_index` records one filter
entry with its column name, filter-type index and value. -/
def Filters.add_filter_index (f : Filters) (column : String) (index : Nat)
    (value : String) : Filters :=
  ⟨f.flts ++ [(column, index, value)]⟩

/-- One iteration of the loop in `BaseModelView._get_filter_args`. -/
def filterArgStep (acc : Filters) (p : String × String) : Filters :=
  match scanFlt p.1.toList with
  | some (idx, col) => acc.add_filter_index (String.mk col) idx p.2
  | none => acc

/-- Embedding of `BaseModelView._get_filter_args`: clears the view's filters, then adds one
entry per argument matched by `_flt_(\d)_(.*)`. -/
def getFilterArgs (f : Filters) (args : List (String × String)) : Filters :=
  args.foldl filterArgStep f.clear_filters

/-- An argument name exactly of the claim's form `page_<VIEW_NAME>`. -/
def pageForm? (name : String) : Option String :=
  match name.toList with
  | 'p' :: 'a' :: 'g' :: 'e' :: '_' :: rest => some (String.mk rest)
  | _ => none

/-- An argument name exactly of the claim's form `_flt_<index>_<column>` with
a numeric (possibly multi-digit) index. -/
def fltForm? (name : String) : Option (Nat × String) :=
  match name.toList with
  | '_' :: 'f' :: 'l' :: 't' :: '_' :: rest =>
      let ds := rest.takeWhile Char.isDigit
      match rest.dropWhile Char.isDigit with
      | '_' :: col => if ds ≠ [] then some (digitsToNat ds, String.mk col) else none
      | _ => none
  | _ => none

/-- What `re.findall('_flt_(\d)_(.*)', name)` actually yields, as a `String`
result. -/
def fltMatch? (name : String) : Option (Nat × String) :=
  (scanFlt name.toList).map (fun r => (r.1, String.mk r.2))

/-- What `re.findall('page_(.*)', name)` actually yields. -/
def pageMatch? (name : String) : Option String :=
  (scanPage name.toList).map String.mk

/-- What `re.findall('_oc_(.*)', name)` actually yields. -/
def ocMatch? (name : String) : Option String :=
  (scanOc name.toList).map String.mk

/-- The dictionary entry `_get_page_args` derives from one query argument:
the suffix after the first `page_` paired with the parsed integer value. -/
def pageEntry? (p : String × String) : Option (String × Int) :=
  (pageMatch? p.1).bind (fun k => (pyInt? p.2).map (fun n => (k, n)))

/-- The dictionary entry `_get_order_args` derives from one query argument of
the full query string `args`. -/
def orderEntry? (args : List (String × String)) (p : String × String) :
    Option (String × (String × Option String)) :=
  (ocMatch? p.1).map (fun k => (k, (p.2, argsGet args ("_od_" ++ k))))

/-- The claim that `_get_filter_args` records exactly one filter per argument
whose name is literally of the form `_flt_<index>_<column>`, with that column,
index and value, and no filter for any other argument — stated as a multiset
count over the resulting filter entries. -/
def claimC1Holds (f : Filters) (args : List (String × String)) : Prop :=
  ∀ col idx val,
    (getFilterArgs f args).flts.count (col, idx, val) =
      args.countP (fun p => fltForm? p.1 == some (idx, col) && p.2 == val)

/-- The claim that `_get_page_args` returns a dictionary with exactly one
entry per argument literally named `page_<VIEW_NAME>`, mapping `VIEW_NAME`
to the integer value, and no entry for any other argument. -/
def claimC4Holds (args : List (String × String)) : Prop :=
  ∃ m, getPageArgs args = some m ∧
    ∀ k n, (k, n) ∈ m ↔
      ∃ name v, (name, v) ∈ args ∧ pageForm? name = some k ∧ pyInt? v = some n

/-- The claim that `_get_order_args` maps each `VIEW_NAME` carried by a pair
`_oc_<VIEW_NAME>=<COL>` and `_od_<VIEW_NAME>=<DIR>` to `(COL, DIR)`, and that
arguments named in any other way produce no entry (every entry stems from an
argument literally named `_oc_<VIEW_NAME>`). -/
def claimC5Holds (args : List (String × String)) : Prop :=
  (∀ k c ds, ("_oc_" ++ k, c) ∈ args → ("_od_" ++ k, ds) ∈ args →
      (k, (c, some ds)) ∈ getOrderArgs args) ∧
  (∀ k c d, (k, (c, d)) ∈ getOrderArgs args → ("_oc_" ++ k, c) ∈ args)

/-! ### Column/fieldset initialization (`_init_vars`) -/

/-- Python truthiness of an attribute holding `None` or a list: `None` and
`[]` are falsy. -/
def pyTruthyList : Option (List α) → Bool
  | some (_ :: _) => true
  | _ => false

/-- A fieldset `(<'TITLE'|None>, {'fields': [...]})`, modelled as the title
and the `'fields'` list. -/
abbrev Fieldset := Option String × List String

/-- The loop `for fieldset_item in fieldsets: cols = cols +
list(fieldset_item[1].get('fields'))` starting from `[]`. -/
def flattenFieldsets (fs : List Fieldset) : List String :=
  fs.foldl (fun acc item => acc ++ item.2) []

/-- The attributes of `BaseCRUDView` read or written by `_init_vars`;
`none` models Python `None`. -/
structure CrudVars where
  related_views : Option (List String)
  list_columns : Option (List String)
  show_columns : Option (List String)
  add_columns : Option (List String)
  edit_columns : Option (List String)
  order_columns : Option (List String)
  show_fieldsets : List Fieldset
  add_fieldsets : List Fieldset
  edit_fieldsets : List Fieldset
  deriving DecidableEq, Repr

/-- Embedding of `BaseCRUDView._init_vars`.  `order_cols` and `list_cols` are the results
of `datamodel.get_order_columns_list()` and `datamodel.get_columns_list()`.
Returns `none` for the `IndexError` raised by `order_cols[0]` when the
defaulted `list_columns` indexes an empty list.  (The line
`self_order_columns = self.order_columns or order_cols` binds a local name
and leaves the instance unchanged, so it contributes nothing here.) -/
def crudInitVars (v : CrudVars) (order_cols list_cols : List String) :
    Option CrudVars :=
  let relatedViews := if pyTruthyList v.related_views then v.related_views.getD [] else []
  match (if pyTruthyList v.list_columns then some (v.list_columns.getD [])
         else order_cols.head?.map (fun c => [c])) with
  | none => none
  | some listColumns =>
    let showColumns :=
      if v.show_fieldsets ≠ [] then some (flattenFieldsets v.show_fieldsets)
      else if pyTruthyList v.show_columns then v.show_columns else some list_cols
    let addColumns :=
      if v.add_fieldsets ≠ [] then some (flattenFieldsets v.add_fieldsets)
      else if pyTruthyList v.add_columns then v.add_columns else some list_cols
    let editColumns :=
      if v.edit_fieldsets ≠ [] then some (flattenFieldsets v.edit_fieldsets)
      else if pyTruthyList v.edit_columns then v.edit_columns else some list_cols
    some { v with
            related_views := some relatedViews,
            list_columns := some listColumns,
            show_columns := showColumns,
            add_columns := addColumns,
            edit_columns := editColumns }

/-- Embedding of `SimpleFormView._init_vars`.  `list_cols` is
`[field.name for field in self.form.refresh()]`.  Returns the resulting
`(form_columns, form_fieldsets)`. -/
def simpleFormInitVars (form_columns : Option (List String))
    (form_fieldsets : Option (List Fieldset)) (list_cols : List String) :
    List String × List Fieldset :=
  let fcols := if pyTruthyList form_columns then form_columns.getD [] else []
  let fsets := if pyTruthyList form_fieldsets then form_fieldsets.getD [] else []
  if fsets ≠ [] then (flattenFieldsets fsets, fsets)
  else if fcols ≠ [] then (fcols, fsets)
  else (list_cols, fsets)

/-! ### View classes, `expose`, `create_blueprint`, `BaseView.__init__` -/

/-- Python truthiness of an attribute holding `None` or a string. -/
def pyTruthyStr : Option String → Bool
  | some s => s ≠ ""
  | none => false

/-- Python `str.lower()`, character by character (class names are ASCII). -/
def pyLower (s : String) : String :=
  String.mk (s.data.map Char.toLower)

/-- One attribute of a view instance as seen through `dir(self)`: its name,
its `_urls` list when the `expose` decorator set one, and whether it carries
an `_action` marker. -/
structure AttrM where
  name : String
  urls : Option (List (String × List String))
  action : Bool
  deriving DecidableEq, Repr

/-- The state of a view instance relevant to `BaseView.__init__` and
`BaseView.create_blueprint`. -/
structure ViewClass where
  className : String
  route_base : Option String
  endpoint : Option String
  base_permissions : Option (List String)
  actions : Option (List String)
  attrs : List AttrM
  deriving DecidableEq, Repr

/-- The `expose(url, methods)` decorator: initializes `f._urls` to `[]` when
absent and appends `(url, methods)`. -/
def expose (url : String) (methods : List String)
    (urls : Option (List (String × List String))) : List (String × List String) :=
  urls.getD [] ++ [(url, methods)]

/-- The Flask blueprint as far as `create_blueprint` configures it: its name,
`url_prefix`, and the URL rules added by `_register_urls`, each rule being
`(url, endpoint-attribute-name, methods)`. -/
structure BlueprintM where
  name : String
  url_prefix : String
  rules : List (String × String × List String)
  deriving DecidableEq, Repr

/-- One iteration of the `dir(self)` loop in `BaseView._register_urls`:
attributes without `_urls` are skipped, the others contribute one
`add_url_rule(url, attr_name, attr, methods)` per `_urls` entry. -/
def registerStep (bp : List (String × String × List String)) (a : AttrM) :
    List (String × String × List String) :=
  match a.urls with
  | some urls => bp ++ urls.map (fun um => (um.1, a.name, um.2))
  | none => bp

/-- Embedding of `BaseView.create_blueprint` followed by `_register_urls`: the endpoint
defaults to the class name when falsy, the `url_prefix` is `route_base`,
defaulting to `'/' + cls.__name__.lower()` when it is `None`. -/
def create_blueprint (v : ViewClass) : BlueprintM :=
  let endpoint := if pyTruthyStr v.endpoint then v.endpoint.getD "" else v.className
  let routeBase := match v.route_base with
    | some r => r
    | none => "/" ++ pyLower v.className
  { name := endpoint,
    url_prefix := routeBase,
    rules := v.attrs.foldl registerStep [] }

/-- Embedding of `BaseView.__init__`: when `base_permissions` is `None` it is set to
`['can_' + attr_name for attr_name in dir(self) if hasattr(getattr(self,
attr_name), '_urls')]`; the following loop over action-decorated attributes
evaluates `attr_name._action` on the attribute *name* (a `str`), so it raises
`AttributeError` (modelled as `none`) as soon as any attribute carries
`_action`. -/
def baseViewInit (v : ViewClass) : Option ViewClass :=
  match v.base_permissions with
  | some _ => some v
  | none =>
      let perms := v.attrs.filterMap
        (fun a => if a.urls.isSome then some ("can_" ++ a.name) else none)
      let acts := if pyTruthyList v.actions then v.actions.getD [] else []
      if v.attrs.any (·.action) then none
      else some { v with base_permissions := some perms, actions := some acts }

/-! ### `_get_redirect` -/

/-- Embedding of `BaseView._get_redirect`: the `'next'` query argument when truthy
(present and non-empty); otherwise `url_for(endpoint.default_view)`
(`viewUrl`, `none` when `url_for` raises), falling back to the index view's
URL (`indexUrl`, itself `none` when that second `url_for` raises, which
propagates). -/
def getRedirect (nextArg viewUrl indexUrl : Option String) : Option String :=
  match nextArg with
  | some s =>
      if s ≠ "" then some s
      else match viewUrl with
        | some u => some u
        | none => indexUrl
  | none =>
      match viewUrl with
      | some u => some u
      | none => indexUrl

/-! ### Form-handling routes as event traces

The externally owned collaborators (WTForms validation, the ORM session,
template rendering) are abstracted: a handler is a function from the request
method and the form's validation verdict to the ordered list of calls it
makes (`Event`s) and its HTTP response (`Resp`). -/

inductive Event where
  | form_post_hook
  | populate_obj
  | set_rel_attr (col : String)
  | pre_add
  | dm_add
  | post_add
  | pre_update
  | dm_edit
  | post_update
  | pre_delete
  | dm_delete
  | post_delete
  deriving DecidableEq, Repr

inductive Resp where
  | rendered (template : String) (form : Option String)
  | redirected (target : String)
  deriving DecidableEq, Repr

/-- The `datamodel` persistence calls among a handler's events. -/
def persistCalls (l : List Event) : List Event :=
  l.filter (fun e => e == Event.dm_add || e == Event.dm_edit || e == Event.dm_delete)

/-- Embedding of `SimpleFormView.this_form_post`: `form.validate_on_submit()` is the
conjunction of the request being a submission (POST) and the form
validating; on success the `form_post` hook runs and the response is a
redirect to `_get_redirect()`, otherwise the form template is re-rendered
with the same (erroneous) form. -/
def this_form_post (isPost formValid : Bool) (form redirectTarget
    form_template : String) : List Event × Resp :=
  if isPost && formValid then
    ([Event.form_post_hook], Resp.redirected redirectTarget)
  else
    ([], Resp.rendered form_template (some form))

/-- Embedding of `GeneralView.add`: on `validate_on_submit()` the item is populated, the
relation columns filtered from the query string are set, then `pre_add`,
`datamodel.add`, `post_add` run in order and the response redirects;
otherwise the add template is re-rendered with the failed form. -/
def general_add (isPost formValid : Bool) (exclude_cols : List String)
    (form redirectTarget add_template : String) : List Event × Resp :=
  if isPost && formValid then
    (Event.populate_obj :: (exclude_cols.map Event.set_rel_attr
        ++ [Event.pre_add, Event.dm_add, Event.post_add]),
     Resp.redirected redirectTarget)
  else
    ([], Resp.rendered add_template (some form))

/-- Embedding of `GeneralView.edit`: on POST with a validating form the item is populated,
relation columns set, then `pre_update`, `datamodel.edit`, `post_update` run
in order and the response redirects; on POST with a failing form the edit
template is re-rendered with that form; on GET it is rendered with a freshly
built form. -/
def general_edit (isPost formValid : Bool) (exclude_cols : List String)
    (form redirectTarget edit_template : String) : List Event × Resp :=
  if isPost then
    if formValid then
      (Event.populate_obj :: (exclude_cols.map Event.set_rel_attr
          ++ [Event.pre_update, Event.dm_edit, Event.post_update]),
       Resp.redirected redirectTarget)
    else ([], Resp.rendered edit_template (some form))
  else ([], Resp.rendered edit_template (some form))

/-- Embedding of `GeneralView.delete`: unconditionally `pre_delete`, `datamodel.delete`,
`post_delete`, then a redirect. -/
def general_delete (redirectTarget : String) : List Event × Resp :=
  ([Event.pre_delete, Event.dm_delete, Event.post_delete],
   Resp.redirected redirectTarget)

/-! ## Theorems -/

/-- C7: the filter state used for a request depends only on that request's
own query arguments — `_get_filter_args` clears the view's filter collection
before re-populating it, so the result is independent of whatever filters a
previous request left behind, and serving a second request discards the
first request's filters. -/
theorem getFilterArgs_per_request (f f' : Filters)
    (args prev : List (String × String)) :
    getFilterArgs f args = getFilterArgs f' args ∧
    getFilterArgs (getFilterArgs f prev) args = getFilterArgs f' args :=
  ⟨rfl, rfl⟩

/-- C10: `_get_redirect` returns the request's `next` argument whenever it is
present and non-empty, with no restriction on its destination; only when
`next` is absent or empty does it fall back to the default view's URL, and to
the index view's URL when that endpoint does not resolve. -/
theorem getRedirect_spec (nextArg viewUrl indexUrl : Option String) (s u : String) :
    (s ≠ "" → getRedirect (some s) viewUrl indexUrl = some s) ∧
    (nextArg = none ∨ nextArg = some "" →
      (viewUrl = some u → getRedirect nextArg viewUrl indexUrl = some u) ∧
      (viewUrl = none → getRedirect nextArg viewUrl indexUrl = indexUrl)) := by
  constructor
  · intro hs
    simp [getRedirect, hs]
  · intro hn
    constructor
    · intro hv
      rcases hn with h | h <;> subst h <;> simp [getRedirect, hv]
    · intro hv
      rcases hn with h | h <;> subst h <;> simp [getRedirect, hv]

/-- Witness for C10 at concrete inputs, including an external destination. -/
theorem getRedirect_spec_witness :
    getRedirect (some "http://elsewhere.example/p") (some "/myview/list") (some "/") =
        some "http://elsewhere.example/p" ∧
    getRedirect none (some "/myview/list") (some "/") = some "/myview/list" ∧
    getRedirect (some "") none (some "/") = some "/" := by
  refine ⟨?_, ?_, ?_⟩
  · exact (getRedirect_spec (some "http://elsewhere.example/p") (some "/myview/list")
      (some "/") "http://elsewhere.example/p" "/myview/list").1 (by decide)
  · exact ((getRedirect_spec none (some "/myview/list") (some "/") ""
      "/myview/list").2 (Or.inl rfl)).1 rfl
  · exact ((getRedirect_spec (some "") none (some "/") "" "unused").2
      (Or.inr rfl)).2 rfl

/-- C1 counterexample: the argument `a_flt_0_name` is not of the form
`_flt_<index>_<column>`, yet `_get_filter_args` records a filter for it —
the regular expression is unanchored, so the claim as stated is false. -/
theorem claimC1_counterexample :
    ¬ claimC1Holds ⟨[]⟩ [("a_flt_0_name", "v")] := by
  intro h
  have hc := h "name" 0 "v"
  revert hc
  decide

/-- Count of one filter entry produced by the `_get_filter_args` loop. -/
theorem foldl_filterArgStep_count (col : String) (idx : Nat) (val : String) :
    ∀ (args : List (String × String)) (acc : Filters),
      ((args.foldl filterArgStep acc).flts.count (col, idx, val)) =
        acc.flts.count (col, idx, val) +
          args.countP (fun p => fltMatch? p.1 == some (idx, col) && p.2 == val) := by
  intro args
  induction args with
  | nil => intro acc; simp
  | cons p rest ih =>
      intro acc
      rw [List.foldl_cons, ih, List.countP_cons]
      unfold filterArgStep
      cases h : scanFlt p.1.data with
      | none =>
          simp [fltMatch?, String.toList, h]
      | some ic =>
          obtain ⟨i, cs⟩ := ic
          simp only [Filters.add_filter_index, List.count_append, fltMatch?,
            String.toList, h, Option.map_some', List.count_cons, List.count_nil,
            Bool.and_eq_true, beq_iff_eq, Option.some.injEq, Prod.mk.injEq]
          split_ifs with hA hB hB <;> first | omega | (exfalso; tauto)

/-- C1 (amended): after `_get_filter_args`, the filter set contains exactly
one filter per query-string argument whose name contains a match of
`_flt_<digit>_<rest>` (a single decimal digit, earliest match), recording the
rest as column, the digit as index, and the argument's value; arguments
without such a match contribute no filter. -/
theorem getFilterArgs_count (f : Filters) (args : List (String × String))
    (col : String) (idx : Nat) (val : String) :
    (getFilterArgs f args).flts.count (col, idx, val) =
      args.countP (fun p => fltMatch? p.1 == some (idx, col) && p.2 == val) := by
  unfold getFilterArgs
  rw [foldl_filterArgStep_count]
  simp [Filters.clear_filters]

/-- C2: for POSTs to `this_form_post`, `add` and `edit`, a failing form
re-renders the handler's template with the erroneous form and performs no
persistence call, a validating form yields a redirect, and every outcome is
one of those two. -/
theorem form_handlers_validation_outcomes (isPost formValid : Bool)
    (ec : List String) (form r tF tA tE : String) :
    (formValid = false →
      this_form_post true formValid form r tF = ([], Resp.rendered tF (some form)) ∧
      persistCalls (this_form_post true formValid form r tF).1 = [] ∧
      (general_add true formValid ec form r tA).2 = Resp.rendered tA (some form) ∧
      persistCalls (general_add true formValid ec form r tA).1 = [] ∧
      (general_edit true formValid ec form r tE).2 = Resp.rendered tE (some form) ∧
      persistCalls (general_edit true formValid ec form r tE).1 = []) ∧
    (formValid = true →
      (this_form_post true formValid form r tF).2 = Resp.redirected r ∧
      (general_add true formValid ec form r tA).2 = Resp.redirected r ∧
      (general_edit true formValid ec form r tE).2 = Resp.redirected r) ∧
    (∀ res : List Event × Resp,
      res = this_form_post isPost formValid form r tF ∨
      res = general_add isPost formValid ec form r tA ∨
      res = general_edit isPost formValid ec form r tE →
      (∃ t f, res.2 = Resp.rendered t f) ∨ ∃ t, res.2 = Resp.redirected t) := by
  refine ⟨?_, ?_, ?_⟩
  · rintro rfl
    simp [this_form_post, general_add, general_edit, persistCalls]
  · rintro rfl
    simp [this_form_post, general_add, general_edit]
  · rintro res (rfl | rfl | rfl) <;> cases isPost <;> cases formValid <;>
      simp [this_form_post, general_add, general_edit]

/-- Witness for C2: concrete failing and validating `add` POSTs. -/
theorem form_handlers_validation_outcomes_witness :
    (general_add true false ["contact_group"] "f" "/next" "add.html").2 =
        Resp.rendered "add.html" (some "f") ∧
    (general_add true true ["contact_group"] "f" "/next" "add.html").2 =
        Resp.redirected "/next" := by
  constructor
  · exact ((form_handlers_validation_outcomes true false ["contact_group"]
      "f" "/next" "form.html" "add.html" "edit.html").1 rfl).2.2.1
  · exact ((form_handlers_validation_outcomes true true ["contact_group"]
      "f" "/next" "form.html" "add.html" "edit.html").2.1 rfl).2.1

/-- Relation-column assignments contribute no hook or persistence events. -/
theorem count_map_set_rel_attr (ec : List String) (e : Event)
    (h : ∀ c, e ≠ Event.set_rel_attr c) :
    (ec.map Event.set_rel_attr).count e = 0 := by
  refine List.count_eq_zero.2 (fun hm => ?_)
  obtain ⟨c, -, hc⟩ := List.mem_map.1 hm
  exact h c hc.symm

/-- C3: on a validated add, `pre_add` runs strictly before `datamodel.add`
and `post_add` strictly after it (each exactly once), and likewise
`pre_update`/`post_update` around `datamodel.edit` on a validated edit;
neither hook runs when validation fails; `pre_delete`/`post_delete` bracket
`datamodel.delete` on every delete request. -/
theorem hooks_bracket_persistence (formValid : Bool) (ec : List String)
    (form r tA tE : String) :
    (formValid = true →
      List.Sublist [Event.pre_add, Event.dm_add, Event.post_add]
          (general_add true formValid ec form r tA).1 ∧
      List.Sublist [Event.pre_update, Event.dm_edit, Event.post_update]
          (general_edit true formValid ec form r tE).1 ∧
      (general_add true formValid ec form r tA).1.count Event.pre_add = 1 ∧
      (general_add true formValid ec form r tA).1.count Event.dm_add = 1 ∧
      (general_add true formValid ec form r tA).1.count Event.post_add = 1 ∧
      (general_edit true formValid ec form r tE).1.count Event.pre_update = 1 ∧
      (general_edit true formValid ec form r tE).1.count Event.dm_edit = 1 ∧
      (general_edit true formValid ec form r tE).1.count Event.post_update = 1) ∧
    (formValid = false →
      (general_add true formValid ec form r tA).1 = [] ∧
      (general_edit true formValid ec form r tE).1 = []) ∧
    List.Sublist [Event.pre_delete, Event.dm_delete, Event.post_delete] (general_delete r).1 ∧
    (general_delete r).1.count Event.pre_delete = 1 ∧
    (general_delete r).1.count Event.dm_delete = 1 ∧
    (general_delete r).1.count Event.post_delete = 1 := by
  refine ⟨?_, ?_, ?_, ?_, ?_, ?_⟩
  · rintro rfl
    refine ⟨?_, ?_, ?_, ?_, ?_, ?_, ?_, ?_⟩ <;>
      simp only [general_add, general_edit, Bool.and_true, if_true, if_pos rfl] <;>
      first
      | exact (List.sublist_append_right _ _).cons _
      | (rw [List.count_cons, List.count_append, count_map_set_rel_attr] <;>
          first | decide | (intro c; simp))
  · rintro rfl
    simp [general_add, general_edit]
  · exact List.Sublist.refl _
  · show List.count Event.pre_delete
        [Event.pre_delete, Event.dm_delete, Event.post_delete] = 1
    decide
  · show List.count Event.dm_delete
        [Event.pre_delete, Event.dm_delete, Event.post_delete] = 1
    decide
  · show List.count Event.post_delete
        [Event.pre_delete, Event.dm_delete, Event.post_delete] = 1
    decide

/-- Witness for C3: a concrete validated and a concrete failing add. -/
theorem hooks_bracket_persistence_witness :
    List.Sublist [Event.pre_add, Event.dm_add, Event.post_add]
        (general_add true true ["contact_group"] "f" "/next" "add.html").1 ∧
    (general_add true false ["contact_group"] "f" "/next" "add.html").1 = [] := by
  constructor
  · exact ((hooks_bracket_persistence true ["contact_group"] "f" "/next"
      "add.html" "edit.html").1 rfl).1
  · exact ((hooks_bracket_persistence false ["contact_group"] "f" "/next"
      "add.html" "edit.html").2.1 rfl).1

/-- Assigning a key not yet present appends the binding. -/
theorem dictSet_fresh (d : List (String × β)) (k : String) (v : β)
    (h : k ∉ d.map Prod.fst) : dictSet d k v = d ++ [(k, v)] := by
  induction d with
  | nil => rfl
  | cons p rest ih =>
      simp only [List.map_cons, List.mem_cons, not_or] at h
      unfold dictSet
      rw [if_neg (fun he => h.1 he.symm)]
      rw [ih h.2]
      simp

/-- The `_get_page_args` loop, when the matched view names are distinct and
all matched values parse, appends one entry per matching argument. -/
theorem getPageArgsAux_spec :
    ∀ (args : List (String × String)) (acc : List (String × Int)),
      (∀ p ∈ args, (pageMatch? p.1).isSome → (pyInt? p.2).isSome) →
      (∀ k, k ∈ args.filterMap (fun p => pageMatch? p.1) → k ∉ acc.map Prod.fst) →
      (args.filterMap (fun p => pageMatch? p.1)).Nodup →
      getPageArgsAux args acc = some (acc ++ args.filterMap pageEntry?) := by
  intro args
  induction args with
  | nil => intro acc _ _ _; simp [getPageArgsAux]
  | cons p rest ih =>
      intro acc hparse hfresh hnd
      obtain ⟨name, value⟩ := p
      cases hm : scanPage name.data with
      | none =>
          have hpm : pageMatch? name = none := by simp [pageMatch?, String.toList, hm]
          have hfm : List.filterMap (fun p => pageMatch? p.1) ((name, value) :: rest) =
              List.filterMap (fun p => pageMatch? p.1) rest := by
            rw [List.filterMap_cons]
            simp [hpm]
          rw [show getPageArgsAux ((name, value) :: rest) acc = getPageArgsAux rest acc by
            simp [getPageArgsAux, String.toList, hm]]
          rw [List.filterMap_cons]
          simp only [pageEntry?, hpm, Option.none_bind]
          exact ih acc (fun q hq => hparse q (List.mem_cons_of_mem _ hq))
            (fun k hk => hfresh k (by rw [hfm]; exact hk))
            (by rw [hfm] at hnd; exact hnd)
      | some suffix =>
          have hpm : pageMatch? name = some (String.mk suffix) := by
            simp [pageMatch?, String.toList, hm]
          have hfm : List.filterMap (fun p => pageMatch? p.1) ((name, value) :: rest) =
              String.mk suffix :: List.filterMap (fun p => pageMatch? p.1) rest := by
            rw [List.filterMap_cons]
            simp [hpm]
          have hint : (pyInt? value).isSome :=
            hparse (name, value) (List.mem_cons_self _ _) (by simp [hpm])
          obtain ⟨n, hn⟩ := Option.isSome_iff_exists.1 hint
          rw [show getPageArgsAux ((name, value) :: rest) acc =
                getPageArgsAux rest (dictSet acc (String.mk suffix) n) by
            simp [getPageArgsAux, String.toList, hm, hn]]
          have hset : dictSet acc (String.mk suffix) n = acc ++ [(String.mk suffix, n)] :=
            dictSet_fresh acc _ n (hfresh _ (by rw [hfm]; exact List.mem_cons_self _ _))
          rw [hset]
          have hnd' := hfm ▸ hnd
          rw [List.nodup_cons] at hnd'
          have hres := ih (acc ++ [(String.mk suffix, n)])
            (fun q hq => hparse q (List.mem_cons_of_mem _ hq))
            (fun k hk => by
              rw [List.map_append, List.mem_append]
              rintro (hka | hka)
              · exact hfresh k (by rw [hfm]; exact List.mem_cons_of_mem _ hk) hka
              · simp only [List.map_cons, List.map_nil, List.mem_singleton] at hka
                exact hnd'.1 (hka ▸ hk))
            hnd'.2
          rw [hres]
          rw [List.filterMap_cons]
          simp [pageEntry?, hpm, hn]

/-- C4 counterexample: the argument `xpage_Foo` is not named
`page_<VIEW_NAME>`, yet `_get_page_args` produces the entry `Foo ↦ 3` for it
— the regular expression is unanchored, so the claim as stated is false. -/
theorem claimC4_counterexample : ¬ claimC4Holds [("xpage_Foo", "3")] := by
  rintro ⟨m, hm, hiff⟩
  have hval : getPageArgs [("xpage_Foo", "3")] = some [("Foo", (3 : Int))] := by decide
  rw [hval] at hm
  injection hm with hm
  subst hm
  obtain ⟨name, v, hnv, hform, -⟩ := (hiff "Foo" 3).1 (by simp)
  have hn : name = "xpage_Foo" := by
    simpa using congrArg Prod.fst (List.mem_singleton.1 hnv)
  rw [hn] at hform
  exact absurd hform (by decide)

/-- C4 (amended): `_get_page_args` returns a dictionary with one entry per
argument whose name contains `page_` as a substring, keyed by the text after
the first occurrence and mapped to the integer value; arguments without that
substring produce no entry. -/
theorem getPageArgs_amended (args : List (String × String)) (k : String) (n : Int)
    (hparse : ∀ p ∈ args, (pageMatch? p.1).isSome → (pyInt? p.2).isSome)
    (hnd : (args.filterMap (fun p => pageMatch? p.1)).Nodup) :
    (getPageArgs args).isSome ∧
    ((k, n) ∈ (getPageArgs args).getD [] ↔
      ∃ name v, (name, v) ∈ args ∧ pageMatch? name = some k ∧ pyInt? v = some n) := by
  have hspec := getPageArgsAux_spec args [] hparse (by simp) hnd
  unfold getPageArgs
  rw [hspec]
  simp only [Option.isSome_some, Option.getD_some, List.nil_append, true_and]
  rw [List.mem_filterMap]
  constructor
  · rintro ⟨q, hq, he⟩
    obtain ⟨name, v⟩ := q
    cases hpm : pageMatch? name with
    | none =>
        unfold pageEntry? at he
        rw [hpm] at he
        simp at he
    | some kk =>
        cases hpi : pyInt? v with
        | none =>
            unfold pageEntry? at he
            rw [hpm, hpi] at he
            simp at he
        | some nn =>
            unfold pageEntry? at he
            rw [hpm, hpi] at he
            simp only [Option.some_bind, Option.map_some', Option.some.injEq,
              Prod.mk.injEq] at he
            exact ⟨name, v, hq, by rw [hpm, he.1], by rw [hpi, he.2]⟩
  · rintro ⟨name, v, hmem, hk, hn⟩
    exact ⟨(name, v), hmem, by simp [pageEntry?, hk, hn]⟩

/-- Witness for C4 at a well-formed paging argument. -/
theorem getPageArgs_amended_witness :
    ("Foo", (3 : Int)) ∈ (getPageArgs [("page_Foo", "3")]).getD [] :=
  (getPageArgs_amended [("page_Foo", "3")] "Foo" 3 (by decide) (by decide)).2.2
    ⟨"page_Foo", "3", by simp, by decide, by decide⟩

/-- The `_get_order_args` loop, when the matched view names are distinct,
appends one entry per matching argument. -/
theorem foldl_orderArgStep_spec (args : List (String × String)) :
    ∀ (l : List (String × String)) (acc : List (String × (String × Option String))),
      (∀ k, k ∈ l.filterMap (fun p => ocMatch? p.1) → k ∉ acc.map Prod.fst) →
      (l.filterMap (fun p => ocMatch? p.1)).Nodup →
      l.foldl (orderArgStep args) acc = acc ++ l.filterMap (orderEntry? args) := by
  intro l
  induction l with
  | nil => intro acc _ _; simp
  | cons p rest ih =>
      intro acc hfresh hnd
      obtain ⟨name, value⟩ := p
      rw [List.foldl_cons]
      cases hm : scanOc name.data with
      | none =>
          have hpm : ocMatch? name = none := by simp [ocMatch?, String.toList, hm]
          have hfm : List.filterMap (fun p => ocMatch? p.1) ((name, value) :: rest) =
              List.filterMap (fun p => ocMatch? p.1) rest := by
            rw [List.filterMap_cons]
            simp [hpm]
          rw [show orderArgStep args acc (name, value) = acc by
            simp [orderArgStep, String.toList, hm]]
          rw [List.filterMap_cons]
          simp only [orderEntry?, hpm, Option.map_none']
          exact ih acc (fun k hk => hfresh k (by rw [hfm]; exact hk))
            (by rw [hfm] at hnd; exact hnd)
      | some suffix =>
          have hpm : ocMatch? name = some (String.mk suffix) := by
            simp [ocMatch?, String.toList, hm]
          have hfm : List.filterMap (fun p => ocMatch? p.1) ((name, value) :: rest) =
              String.mk suffix :: List.filterMap (fun p => ocMatch? p.1) rest := by
            rw [List.filterMap_cons]
            simp [hpm]
          rw [show orderArgStep args acc (name, value) =
                dictSet acc (String.mk suffix)
                  (value, argsGet args ("_od_" ++ String.mk suffix)) by
            simp [orderArgStep, String.toList, hm]]
          rw [dictSet_fresh acc _ _
            (hfresh _ (by rw [hfm]; exact List.mem_cons_self _ _))]
          have hnd' := hfm ▸ hnd
          rw [List.nodup_cons] at hnd'
          rw [ih (acc ++ [(String.mk suffix, (value, argsGet args ("_od_" ++ String.mk suffix)))])
            (fun k hk => by
              rw [List.map_append, List.mem_append]
              rintro (hka | hka)
              · exact hfresh k (by rw [hfm]; exact List.mem_cons_of_mem _ hk) hka
              · simp only [List.map_cons, List.map_nil, List.mem_singleton] at hka
                exact hnd'.1 (hka ▸ hk))
            hnd'.2]
          rw [List.filterMap_cons]
          simp [orderEntry?, hpm]

/-- C5 counterexample: the argument `x_oc_Foo` is named neither `_oc_<VIEW>`
nor `_od_<VIEW>`, yet `_get_order_args` produces an entry for it — the
regular expression is unanchored, so the claim as stated is false. -/
theorem claimC5_counterexample : ¬ claimC5Holds [("x_oc_Foo", "name")] := by
  rintro ⟨-, h2⟩
  have hval : getOrderArgs [("x_oc_Foo", "name")] =
      [("Foo", ("name", (none : Option String)))] := by decide
  have hmem : ("Foo", ("name", (none : Option String))) ∈
      getOrderArgs [("x_oc_Foo", "name")] := by
    rw [hval]; exact List.mem_singleton.2 rfl
  have hoc := h2 "Foo" "name" none hmem
  revert hoc
  decide

/-- C5 (amended): `_get_order_args` has one entry per argument whose name
contains `_oc_` as a substring, keyed by the text after the first occurrence
and mapped to the pair of that argument's value and the value of the
`_od_<key>` argument (Python `None` when absent); arguments without that
substring produce no entry. -/
theorem getOrderArgs_amended (args : List (String × String)) (k c : String)
    (d : Option String)
    (hnd : (args.filterMap (fun p => ocMatch? p.1)).Nodup) :
    (k, (c, d)) ∈ getOrderArgs args ↔
      ∃ name, (name, c) ∈ args ∧ ocMatch? name = some k ∧
        d = argsGet args ("_od_" ++ k) := by
  unfold getOrderArgs
  rw [foldl_orderArgStep_spec args args [] (by simp) hnd]
  rw [List.nil_append, List.mem_filterMap]
  constructor
  · rintro ⟨q, hq, he⟩
    obtain ⟨name, v⟩ := q
    cases hpm : ocMatch? name with
    | none =>
        unfold orderEntry? at he
        rw [hpm] at he
        simp at he
    | some kk =>
        unfold orderEntry? at he
        rw [hpm] at he
        simp only [Option.map_some', Option.some.injEq, Prod.mk.injEq] at he
        refine ⟨name, he.2.1 ▸ hq, by rw [hpm, he.1], ?_⟩
        rw [← he.2.2, he.1]
  · rintro ⟨name, hmem, hk, hd⟩
    exact ⟨(name, c), hmem, by simp [orderEntry?, hk, ← hd]⟩

/-- Witness for C5 at a well-formed ordering pair. -/
theorem getOrderArgs_amended_witness :
    ("MyView", ("name", some "asc")) ∈
      getOrderArgs [("_oc_MyView", "name"), ("_od_MyView", "asc")] :=
  (getOrderArgs_amended [("_oc_MyView", "name"), ("_od_MyView", "asc")]
      "MyView" "name" (some "asc") (by decide)).2
    ⟨"_oc_MyView", by simp, by decide, by decide⟩

/-- C6: with a non-empty fieldset list configured for show, add or edit (or
`form_fieldsets` on `SimpleFormView`), the corresponding column list after
initialization is the concatenation, in fieldset order, of the fieldsets'
`fields` lists, replacing any explicitly configured column list; with no
fieldsets and no columns set, the show/add/edit column lists default to the
datamodel's full column list (the form's own field names for
`SimpleFormView`). -/
theorem init_vars_fieldsets (v : CrudVars) (order_cols list_cols fcols : List String)
    (form_columns : Option (List String)) (form_fieldsets : Option (List Fieldset))
    (w : CrudVars) (h : crudInitVars v order_cols list_cols = some w) :
    (v.show_fieldsets ≠ [] → w.show_columns = some (flattenFieldsets v.show_fieldsets)) ∧
    (v.show_fieldsets = [] → pyTruthyList v.show_columns = false →
      w.show_columns = some list_cols) ∧
    (v.add_fieldsets ≠ [] → w.add_columns = some (flattenFieldsets v.add_fieldsets)) ∧
    (v.add_fieldsets = [] → pyTruthyList v.add_columns = false →
      w.add_columns = some list_cols) ∧
    (v.edit_fieldsets ≠ [] → w.edit_columns = some (flattenFieldsets v.edit_fieldsets)) ∧
    (v.edit_fieldsets = [] → pyTruthyList v.edit_columns = false →
      w.edit_columns = some list_cols) ∧
    (pyTruthyList form_fieldsets = true →
      (simpleFormInitVars form_columns form_fieldsets fcols).1 =
        flattenFieldsets (form_fieldsets.getD [])) ∧
    (pyTruthyList form_fieldsets = false → pyTruthyList form_columns = false →
      (simpleFormInitVars form_columns form_fieldsets fcols).1 = fcols) := by
  unfold crudInitVars at h
  cases hlc : (if pyTruthyList v.list_columns then some (v.list_columns.getD [])
      else order_cols.head?.map (fun c => [c])) with
  | none =>
      rw [hlc] at h
      exact absurd h (by simp)
  | some listColumns =>
      rw [hlc] at h
      simp only [Option.some.injEq] at h
      subst h
      refine ⟨?_, ?_, ?_, ?_, ?_, ?_, ?_, ?_⟩
      · intro hfs; simp [hfs]
      · intro hfs htr; simp [hfs, htr]
      · intro hfs; simp [hfs]
      · intro hfs htr; simp [hfs, htr]
      · intro hfs; simp [hfs]
      · intro hfs htr; simp [hfs, htr]
      · intro hfs
        cases form_fieldsets with
        | none => simp [pyTruthyList] at hfs
        | some fs =>
            cases fs with
            | nil => simp [pyTruthyList] at hfs
            | cons f rest => simp [simpleFormInitVars, pyTruthyList]
      · intro hfs hfc
        cases form_fieldsets with
        | none =>
            cases form_columns with
            | none => simp [simpleFormInitVars, pyTruthyList]
            | some fc =>
                cases fc with
                | nil => simp [simpleFormInitVars, pyTruthyList]
                | cons c rest => simp [pyTruthyList] at hfc
        | some fs =>
            cases fs with
            | nil =>
                cases form_columns with
                | none => simp [simpleFormInitVars, pyTruthyList]
                | some fc =>
                    cases fc with
                    | nil => simp [simpleFormInitVars, pyTruthyList]
                    | cons c rest => simp [pyTruthyList] at hfc
            | cons f rest => simp [pyTruthyList] at hfs

/-- Witness for C6: two show fieldsets flatten in order. -/
theorem init_vars_fieldsets_witness :
    (crudInitVars
        ⟨none, none, none, none, none, none,
          [(some "Summary", ["name", "address"]), (none, ["birthday"])], [], []⟩
        ["id"] ["id", "name", "address", "birthday"]).map CrudVars.show_columns =
      some (some ["name", "address", "birthday"]) := by
  rcases hw : crudInitVars
      ⟨none, none, none, none, none, none,
        [(some "Summary", ["name", "address"]), (none, ["birthday"])], [], []⟩
      ["id"] ["id", "name", "address", "birthday"] with _ | w
  · exact absurd hw (by decide)
  · rw [Option.map_some']
    have hs := (init_vars_fieldsets _ ["id"] ["id", "name", "address", "birthday"]
      [] none none w hw).1 (by decide)
    rw [hs]
    rfl

/-- The `_register_urls` loop adds one rule per `_urls` entry of each
url-carrying attribute. -/
theorem foldl_registerStep_eq :
    ∀ (attrs : List AttrM) (init : List (String × String × List String)),
      attrs.foldl registerStep init =
        init ++ attrs.flatMap
          (fun a => (a.urls.getD []).map (fun um => (um.1, a.name, um.2))) := by
  intro attrs
  induction attrs with
  | nil => intro init; simp
  | cons a rest ih =>
      intro init
      rw [List.foldl_cons, ih, List.flatMap_cons]
      unfold registerStep
      cases h : a.urls with
      | none => simp [h]
      | some urls => simp [h, List.append_assoc]

/-- Count of a rule among the rules registered for a single attribute. -/
theorem count_map_rule (u nm n : String) (ms : List String)
    (urls : List (String × List String)) :
    ((urls.map (fun um => (um.1, nm, um.2))).count ((u, n, ms) : String × String × List String)) =
      if nm = n then urls.count (u, ms) else 0 := by
  induction urls with
  | nil => simp
  | cons um rest ih =>
      obtain ⟨u1, m1⟩ := um
      rw [List.map_cons, List.count_cons, ih, List.count_cons]
      simp only [beq_iff_eq, Prod.mk.injEq]
      by_cases h : nm = n <;> by_cases h1 : u1 = u <;> by_cases h2 : m1 = ms <;>
        simp [h, h1, h2]

/-- With distinct attribute names, only the named attribute contributes. -/
theorem sum_single_name (g : AttrM → Nat) :
    ∀ (attrs : List AttrM) (a : AttrM), (attrs.map AttrM.name).Nodup → a ∈ attrs →
      (attrs.map (fun b => if b.name = a.name then g b else 0)).sum = g a := by
  intro attrs
  induction attrs with
  | nil =>
      intro a _ ha
      simp at ha
  | cons b rest ih =>
      intro a hnd ha
      rw [List.map_cons] at hnd
      rw [List.nodup_cons] at hnd
      rw [List.map_cons, List.sum_cons]
      rcases List.mem_cons.1 ha with rfl | ha'
      · rw [if_pos rfl]
        have hz : (rest.map (fun c => if c.name = a.name then g c else 0)).sum = 0 := by
          apply List.sum_eq_zero
          intro x hx
          obtain ⟨c, hc, rfl⟩ := List.mem_map.1 hx
          rw [if_neg]
          intro he
          exact hnd.1 (he ▸ List.mem_map_of_mem AttrM.name hc)
        rw [hz]
        omega
      · have hbn : b.name ≠ a.name := by
          intro he
          exact hnd.1 (he ▸ List.mem_map_of_mem AttrM.name ha')
        rw [if_neg hbn, ih a hnd.2 ha', Nat.zero_add]

/-- C8: `create_blueprint` produces a blueprint whose url prefix is the
view's `route_base`, defaulting to `'/'` plus the lowercased class name, and
registers exactly the (url, methods) pairs declared via `expose`: one rule
per declared pair under the declaring attribute's name, and nothing else. -/
theorem create_blueprint_spec (v : ViewClass) (a : AttrM) (u : String)
    (ms : List String)
    (hnd : (v.attrs.map AttrM.name).Nodup) (ha : a ∈ v.attrs) :
    (v.route_base = none →
      BlueprintM.url_prefix (create_blueprint v) = "/" ++ pyLower v.className) ∧
    (∀ rb, v.route_base = some rb → BlueprintM.url_prefix (create_blueprint v) = rb) ∧
    (create_blueprint v).rules.count (u, a.name, ms) = (a.urls.getD []).count (u, ms) ∧
    (∀ r ∈ (create_blueprint v).rules,
      ∃ b ∈ v.attrs, r.2.1 = b.name ∧ (r.1, r.2.2) ∈ b.urls.getD []) := by
  have hrules : (create_blueprint v).rules =
      v.attrs.flatMap (fun b => (b.urls.getD []).map (fun um => (um.1, b.name, um.2))) := by
    show v.attrs.foldl registerStep [] = _
    rw [foldl_registerStep_eq]
    exact List.nil_append _
  refine ⟨?_, ?_, ?_, ?_⟩
  · intro hrb
    show (match v.route_base with
      | some r => r
      | none => "/" ++ pyLower v.className) = _
    rw [hrb]
  · intro rb hrb
    show (match v.route_base with
      | some r => r
      | none => "/" ++ pyLower v.className) = rb
    rw [hrb]
  · rw [hrules, List.count_flatMap]
    rw [show List.count ((u, a.name, ms) : String × String × List String) ∘ (fun (b : AttrM) =>
        (b.urls.getD []).map (fun um => (um.1, b.name, um.2))) =
      (fun (b : AttrM) => if b.name = a.name then (b.urls.getD []).count (u, ms) else 0) from
        funext (fun (b : AttrM) => count_map_rule u b.name a.name ms (b.urls.getD []))]
    exact sum_single_name _ v.attrs a hnd ha
  · intro r hr
    rw [hrules] at hr
    obtain ⟨b, hb, hrb⟩ := List.mem_flatMap.1 hr
    obtain ⟨um, hum, rfl⟩ := List.mem_map.1 hrb
    exact ⟨b, hb, rfl, hum⟩

/-- Witness for C8 on a one-route view with a defaulted route base. -/
theorem create_blueprint_spec_witness :
    BlueprintM.url_prefix (create_blueprint ⟨"MyView", none, none, none, none,
        [⟨"list", some [("/list/", ["GET"])], false⟩]⟩) = "/myview" ∧
    (create_blueprint ⟨"MyView", none, none, none, none,
        [⟨"list", some [("/list/", ["GET"])], false⟩]⟩).rules.count
      ("/list/", "list", ["GET"]) = 1 := by
  obtain ⟨h1, h2, h3, h4⟩ := create_blueprint_spec
    ⟨"MyView", none, none, none, none, [⟨"list", some [("/list/", ["GET"])], false⟩]⟩
    ⟨"list", some [("/list/", ["GET"])], false⟩ "/list/" ["GET"]
    (by decide) (List.mem_singleton.2 rfl)
  refine ⟨?_, ?_⟩
  · rw [h1 rfl]
    rfl
  · rw [h3]
    rfl

/-- One permission string per url-carrying attribute. -/
theorem length_filterMap_perm (l : List AttrM) :
    (l.filterMap (fun a => if a.urls.isSome then some ("can_" ++ a.name) else none)).length
      = (l.filter (fun a => a.urls.isSome)).length := by
  induction l with
  | nil => rfl
  | cons a rest ih =>
      rw [List.filterMap_cons, List.filter_cons]
      by_cases hu : a.urls.isSome
      · simp only [hu, if_pos rfl]
        simp [ih]
      · simp only [hu]
        simp [ih]

/-- C9: for a view with no action-decorated attributes and
`base_permissions = None`, `BaseView.__init__` succeeds and sets
`base_permissions` to exactly the strings `'can_' + attr_name`, one per
attribute that carries exposed URLs. -/
theorem baseViewInit_permissions (v : ViewClass) (p : String)
    (hbp : v.base_permissions = none)
    (hact : ∀ a ∈ v.attrs, a.action = false) :
    (baseViewInit v).isSome ∧
    (p ∈ ((baseViewInit v).map (fun w => w.base_permissions.getD [])).getD [] ↔
      ∃ a ∈ v.attrs, a.urls.isSome ∧ p = "can_" ++ a.name) ∧
    ((baseViewInit v).map (fun w => w.base_permissions.getD [])).getD [] =
      v.attrs.filterMap
        (fun a => if a.urls.isSome then some ("can_" ++ a.name) else none) ∧
    (((baseViewInit v).map (fun w => w.base_permissions.getD [])).getD []).length =
      (v.attrs.filter (fun a => a.urls.isSome)).length := by
  have hany : v.attrs.any (·.action) = false := by
    rw [List.any_eq_false]
    intro a ha
    simp [hact a ha]
  have hres : baseViewInit v = some { v with
      base_permissions := some (v.attrs.filterMap
        (fun a => if a.urls.isSome then some ("can_" ++ a.name) else none)),
      actions := some (if pyTruthyList v.actions then v.actions.getD [] else []) } := by
    unfold baseViewInit
    rw [hbp, hany]
    rfl
  rw [hres]
  refine ⟨rfl, ?_, rfl, length_filterMap_perm v.attrs⟩
  simp only [Option.map_some', Option.getD_some]
  rw [List.mem_filterMap]
  constructor
  · rintro ⟨a, ha, he⟩
    by_cases hu : a.urls.isSome
    · rw [if_pos hu] at he
      exact ⟨a, ha, hu, (Option.some.injEq _ _ ▸ he).symm⟩
    · rw [if_neg hu] at he
      exact absurd he (by simp)
  · rintro ⟨a, ha, hu, rfl⟩
    exact ⟨a, ha, by rw [if_pos hu]⟩

/-- Witness for C9 on a view exposing a single `list` attribute. -/
theorem baseViewInit_permissions_witness :
    "can_list" ∈ ((baseViewInit ⟨"MyView", none, none, none, none,
        [⟨"list", some [("/list/", ["GET"])], false⟩,
         ⟨"route_base", none, false⟩]⟩).map
      (fun w => w.base_permissions.getD [])).getD [] :=
  (baseViewInit_permissions
    ⟨"MyView", none, none, none, none,
      [⟨"list", some [("/list/", ["GET"])], false⟩, ⟨"route_base", none, false⟩]⟩
    "can_list" rfl (by decide)).2.1.2
    ⟨⟨"list", some [("/list/", ["GET"])], false⟩, List.mem_cons_self _ _, rfl, rfl⟩

end FAB
